import Mathlib

/-!
Shallow embedding of the core binary-field decoder of
`scripts/antigravity_quota.py`: the variable-length integer decoder
(`read_varint`), the field skipper (`skip_field`), the field locator
(`find_field`), the timestamp decoder (`parse_timestamp`) and the
credential record decoder (`parse_oauth_token_info`).

Buffers are modelled as `List Nat` (one entry per byte); offsets are `Nat`.
Python exceptions are modelled with `Except DecodeErr`; the Python
`ValueError("Incomplete varint")` is `DecodeErr.incompleteVarint` and
`ValueError(f"Unknown wire type: w")` is `DecodeErr.unknownWireType w`.
A `UnicodeDecodeError` from `bytes.decode("utf-8")` is
`DecodeErr.invalidEncoding`.

Every loop of the source advances its offset by at least one byte per
iteration and stops as soon as the offset reaches the end of the buffer,
so running the loop with `data.length + 1` unfoldings is exhaustive: the
fuel can only run out at an offset past the end of the buffer, where each
loop returns exactly its end-of-buffer value.  The fuelled definitions are
therefore faithful to the Python `while` loops and remain kernel-reducible.
-/

deriving instance DecidableEq for Except

inductive DecodeErr where
  | incompleteVarint
  | unknownWireType (wire : Nat)
  | invalidEncoding
deriving DecidableEq, Repr

/-- One iteration state of the `while` loop of `read_varint` (line 51):
`result`, `shift` and `pos` are the Python locals. -/
def readVarintLoop : Nat → List Nat → Nat → Nat → Nat → Except DecodeErr (Nat × Nat)
  | 0, _, _, _, _ => .error .incompleteVarint
  | fuel + 1, data, result, shift, pos =>
    if h : pos < data.length then
      let byte := data[pos]
      let result' := result ||| ((byte &&& 0x7F) <<< shift)
      if byte &&& 0x80 = 0 then .ok (result', pos + 1)
      else readVarintLoop fuel data result' (shift + 7) (pos + 1)
    else .error .incompleteVarint

/-- `read_varint(data, offset)` from the source. -/
def read_varint (data : List Nat) (offset : Nat) : Except DecodeErr (Nat × Nat) :=
  readVarintLoop (data.length + 1) data 0 0 offset

/-- `skip_field(data, offset, wire_type)` from the source. -/
def skip_field (data : List Nat) (offset wire : Nat) : Except DecodeErr Nat :=
  if wire = 0 then
    match read_varint data offset with
    | .error e => .error e
    | .ok (_, newOffset) => .ok newOffset
  else if wire = 1 then .ok (offset + 8)
  else if wire = 2 then
    match read_varint data offset with
    | .error e => .error e
    | .ok (len, contentOffset) => .ok (contentOffset + len)
  else if wire = 5 then .ok (offset + 4)
  else .error (.unknownWireType wire)

/-- The `while` loop of `find_field` (line 82).  Only the tag read is
inside the Python `try`; an error from the length read or from
`skip_field` propagates. -/
def findFieldLoop : Nat → List Nat → Nat → Nat → Except DecodeErr (Option (List Nat))
  | 0, _, _, _ => .ok none
  | fuel + 1, data, target, offset =>
    if offset < data.length then
      match read_varint data offset with
      | .error _ => .ok none
      | .ok (tag, tagEnd) =>
        let wire := tag &&& 7
        let num := tag >>> 3
        if num = target ∧ wire = 2 then
          match read_varint data tagEnd with
          | .error e => .error e
          | .ok (len, contentOff) => .ok (some ((data.drop contentOff).take len))
        else
          match skip_field data tagEnd wire with
          | .error e => .error e
          | .ok next => findFieldLoop fuel data target next
    else .ok none

/-- `find_field(data, target_field)` from the source.  Returning
`.ok none` models the Python `return None`. -/
def find_field (data : List Nat) (target : Nat) : Except DecodeErr (Option (List Nat)) :=
  findFieldLoop (data.length + 1) data target 0

/-- The `while` loop of `parse_timestamp` (line 99); it has no
`try`/`except`, so every varint error propagates. -/
def parseTsLoop : Nat → List Nat → Nat → Except DecodeErr (Option Nat)
  | 0, _, _ => .ok none
  | fuel + 1, data, offset =>
    if offset < data.length then
      match read_varint data offset with
      | .error e => .error e
      | .ok (tag, tagEnd) =>
        let wire := tag &&& 7
        let num := tag >>> 3
        if num = 1 ∧ wire = 0 then
          match read_varint data tagEnd with
          | .error e => .error e
          | .ok (seconds, _) => .ok (some seconds)
        else
          match skip_field data tagEnd wire with
          | .error e => .error e
          | .ok next => parseTsLoop fuel data next
    else .ok none

/-- `parse_timestamp(data)` from the source. -/
def parse_timestamp (data : List Nat) : Except DecodeErr (Option Nat) :=
  parseTsLoop (data.length + 1) data 0

/-- Whether a byte is a UTF-8 continuation byte. -/
def isCont (b : Nat) : Bool := decide (0x80 ≤ b) && decide (b < 0xC0)

/-- Payload bits of a UTF-8 continuation byte. -/
def contVal (b : Nat) : Nat := b &&& 0x3F

/-- Strict UTF-8 decoding of a byte list, as Python's
`bytes.decode("utf-8")`: overlong encodings, surrogates and code points
above `0x10FFFF` are rejected. -/
def utf8Decode : List Nat → Option (List Char)
  | [] => some []
  | b :: rest =>
    if b < 0x80 then (utf8Decode rest).map (Char.ofNat b :: ·)
    else if 0xC2 ≤ b ∧ b ≤ 0xDF then
      match rest with
      | c1 :: rest' =>
        if isCont c1 then
          (utf8Decode rest').map (Char.ofNat (((b &&& 0x1F) <<< 6) ||| contVal c1) :: ·)
        else none
      | [] => none
    else if 0xE0 ≤ b ∧ b ≤ 0xEF then
      match rest with
      | c1 :: c2 :: rest' =>
        if isCont c1 ∧ isCont c2 ∧ (b ≠ 0xE0 ∨ 0xA0 ≤ c1) ∧ (b ≠ 0xED ∨ c1 < 0xA0) then
          (utf8Decode rest').map
            (Char.ofNat (((b &&& 0x0F) <<< 12) ||| (contVal c1 <<< 6) ||| contVal c2) :: ·)
        else none
      | _ => none
    else if 0xF0 ≤ b ∧ b ≤ 0xF4 then
      match rest with
      | c1 :: c2 :: c3 :: rest' =>
        if isCont c1 ∧ isCont c2 ∧ isCont c3 ∧ (b ≠ 0xF0 ∨ 0x90 ≤ c1) ∧ (b ≠ 0xF4 ∨ c1 < 0x90) then
          (utf8Decode rest').map
            (Char.ofNat (((b &&& 0x07) <<< 18) ||| (contVal c1 <<< 12) |||
              (contVal c2 <<< 6) ||| contVal c3) :: ·)
        else none
      | _ => none
    else none

/-- `value.decode("utf-8")` as an `Option String`. -/
def utf8DecodeStr (l : List Nat) : Option String :=
  (utf8Decode l).map (fun cs => String.mk cs)

/-- A Python value stored in the `info` dict of `parse_oauth_token_info`:
a string, an int, or `None`. -/
inductive PyVal where
  | pstr (s : String)
  | pint (n : Nat)
  | pnone
deriving DecidableEq, Repr

/-- Python dict assignment `d[k] = v` on an association list without
duplicate keys: overwrite in place if the key is present, append
otherwise. -/
def dictSet : List (String × PyVal) → String → PyVal → List (String × PyVal)
  | [], k, v => [(k, v)]
  | (k', v') :: d, k, v =>
    if k' = k then (k, v) :: d else (k', v') :: dictSet d k v

/-- The value stored by `info["expiry_seconds"] = parse_timestamp(value)`:
Python stores `None` itself when the timestamp decoder found nothing. -/
def pyOfTs : Option Nat → PyVal
  | some n => .pint n
  | none => .pnone

/-- The `while` loop of `parse_oauth_token_info` (line 119). -/
def parseLoop : Nat → List Nat → Nat → List (String × PyVal) →
    Except DecodeErr (List (String × PyVal))
  | 0, _, _, info => .ok info
  | fuel + 1, data, offset, info =>
    if offset < data.length then
      match read_varint data offset with
      | .error e => .error e
      | .ok (tag, tagEnd) =>
        let wire := tag &&& 7
        let num := tag >>> 3
        if wire = 2 then
          match read_varint data tagEnd with
          | .error e => .error e
          | .ok (len, contentOff) =>
            let value := (data.drop contentOff).take len
            let next := contentOff + len
            if num = 1 then
              match utf8DecodeStr value with
              | none => .error .invalidEncoding
              | some s => parseLoop fuel data next (dictSet info "access_token" (.pstr s))
            else if num = 2 then
              match utf8DecodeStr value with
              | none => .error .invalidEncoding
              | some s => parseLoop fuel data next (dictSet info "token_type" (.pstr s))
            else if num = 3 then
              match utf8DecodeStr value with
              | none => .error .invalidEncoding
              | some s => parseLoop fuel data next (dictSet info "refresh_token" (.pstr s))
            else if num = 4 then
              match parse_timestamp value with
              | .error e => .error e
              | .ok t => parseLoop fuel data next (dictSet info "expiry_seconds" (pyOfTs t))
            else parseLoop fuel data next info
        else
          match skip_field data tagEnd wire with
          | .error e => .error e
          | .ok next => parseLoop fuel data next info
    else .ok info

/-- `parse_oauth_token_info(data)` from the source. -/
def parse_oauth_token_info (data : List Nat) : Except DecodeErr (List (String × PyVal)) :=
  parseLoop (data.length + 1) data 0 []

/-!
Specification-level view of a buffer, used to state well-formedness and
refinement claims.  `scanFields` scans a buffer from offset 0 exactly as
the spec describes a sequence of valid tag/value fields: every varint is
complete, every wire type is one of 0, 1, 2, 5, and every value lies
entirely within the buffer.  It returns the list of fields in buffer
order; `none` means the buffer is not well-formed.
-/

structure RawField where
  num : Nat
  wire : Nat
  value : List Nat
deriving DecidableEq, Repr

def scanFieldsLoop : Nat → List Nat → Nat → Option (List RawField)
  | 0, _, _ => none
  | fuel + 1, data, offset =>
    if offset < data.length then
      match read_varint data offset with
      | .error _ => none
      | .ok (tag, tagEnd) =>
        let wire := tag &&& 7
        let num := tag >>> 3
        if wire = 0 then
          match read_varint data tagEnd with
          | .error _ => none
          | .ok (_, next) => (scanFieldsLoop fuel data next).map (⟨num, 0, []⟩ :: ·)
        else if wire = 1 then
          if tagEnd + 8 ≤ data.length then
            (scanFieldsLoop fuel data (tagEnd + 8)).map (⟨num, 1, []⟩ :: ·)
          else none
        else if wire = 2 then
          match read_varint data tagEnd with
          | .error _ => none
          | .ok (len, contentOff) =>
            if contentOff + len ≤ data.length then
              (scanFieldsLoop fuel data (contentOff + len)).map
                (⟨num, 2, (data.drop contentOff).take len⟩ :: ·)
            else none
        else if wire = 5 then
          if tagEnd + 4 ≤ data.length then
            (scanFieldsLoop fuel data (tagEnd + 4)).map (⟨num, 5, []⟩ :: ·)
          else none
        else none
    else some []

/-- A buffer is well-formed when `scanFields` returns its field list. -/
def scanFields (data : List Nat) : Option (List RawField) :=
  scanFieldsLoop (data.length + 1) data 0

/-- The value bytes of the first length-delimited field with the given
number, per the spec of the Field Locator. -/
def firstMatch (target : Nat) : List RawField → Option (List Nat)
  | [] => none
  | f :: fs => if f.num = target ∧ f.wire = 2 then some f.value else firstMatch target fs

/-- Modelled from the spec of the Credential Record Decoder (section 4.5):
the action taken for one decoded field — field numbers 1, 2, 3 decode
UTF-8 into `access_token`, `token_type`, `refresh_token`; field 4 goes
through the Timestamp Decoder into `expiry_seconds`; everything else and
every non-wire-2 field is skipped. -/
def dispatchField (info : List (String × PyVal)) (f : RawField) :
    Except DecodeErr (List (String × PyVal)) :=
  if f.wire = 2 then
    if f.num = 1 then
      match utf8DecodeStr f.value with
      | none => .error .invalidEncoding
      | some s => .ok (dictSet info "access_token" (.pstr s))
    else if f.num = 2 then
      match utf8DecodeStr f.value with
      | none => .error .invalidEncoding
      | some s => .ok (dictSet info "token_type" (.pstr s))
    else if f.num = 3 then
      match utf8DecodeStr f.value with
      | none => .error .invalidEncoding
      | some s => .ok (dictSet info "refresh_token" (.pstr s))
    else if f.num = 4 then
      match parse_timestamp f.value with
      | .error e => .error e
      | .ok t => .ok (dictSet info "expiry_seconds" (pyOfTs t))
    else .ok info
  else .ok info

/-- Folding the per-field dispatch over a field list, per the spec. -/
def foldDispatch : List (String × PyVal) → List RawField →
    Except DecodeErr (List (String × PyVal))
  | info, [] => .ok info
  | info, f :: fs =>
    match dispatchField info f with
    | .error e => .error e
    | .ok info' => foldDispatch info' fs

/-- The ordered list of dict assignments performed by the credential
record decoder's loop, mirroring `parseLoop` step by step. -/
def assignsLoop : Nat → List Nat → Nat → Except DecodeErr (List (String × PyVal))
  | 0, _, _ => .ok []
  | fuel + 1, data, offset =>
    if offset < data.length then
      match read_varint data offset with
      | .error e => .error e
      | .ok (tag, tagEnd) =>
        let wire := tag &&& 7
        let num := tag >>> 3
        if wire = 2 then
          match read_varint data tagEnd with
          | .error e => .error e
          | .ok (len, contentOff) =>
            let value := (data.drop contentOff).take len
            let next := contentOff + len
            if num = 1 then
              match utf8DecodeStr value with
              | none => .error .invalidEncoding
              | some s => (assignsLoop fuel data next).map (("access_token", PyVal.pstr s) :: ·)
            else if num = 2 then
              match utf8DecodeStr value with
              | none => .error .invalidEncoding
              | some s => (assignsLoop fuel data next).map (("token_type", PyVal.pstr s) :: ·)
            else if num = 3 then
              match utf8DecodeStr value with
              | none => .error .invalidEncoding
              | some s => (assignsLoop fuel data next).map (("refresh_token", PyVal.pstr s) :: ·)
            else if num = 4 then
              match parse_timestamp value with
              | .error e => .error e
              | .ok t => (assignsLoop fuel data next).map (("expiry_seconds", pyOfTs t) :: ·)
            else assignsLoop fuel data next
        else
          match skip_field data tagEnd wire with
          | .error e => .error e
          | .ok next => assignsLoop fuel data next
    else .ok []

/-- The assignment trace of `parse_oauth_token_info`. -/
def tokenAssigns (data : List Nat) : Except DecodeErr (List (String × PyVal)) :=
  assignsLoop (data.length + 1) data 0

/-- The value of the last assignment to a key in an assignment trace. -/
def lastAssign (k : String) : List (String × PyVal) → Option PyVal
  | [] => none
  | (k1, v1) :: l =>
    match lastAssign k l with
    | some v => some v
    | none => if k1 = k then some v1 else none

/-- Modelled from the spec (section 8, round-trip law): base-128
continuation-bit encoding of a non-negative integer, 7 payload bits per
byte, least-significant group first, high bit set on all bytes but the
last. -/
def encVarint (n : Nat) : List Nat :=
  if n < 128 then [n] else (n % 128 + 128) :: encVarint (n / 128)
termination_by n
decreasing_by exact Nat.div_lt_self (by omega) (by omega)

/-!
Lemmas about the variable-length integer decoder.
-/

theorem readVarintLoop_bound : ∀ (fuel : Nat) (data : List Nat) (result shift pos v q : Nat),
    readVarintLoop fuel data result shift pos = .ok (v, q) → pos < q ∧ q ≤ data.length := by
  intro fuel
  induction fuel with
  | zero =>
    intro data result shift pos v q h
    simp [readVarintLoop] at h
  | succ fuel ih =>
    intro data result shift pos v q h
    simp only [readVarintLoop] at h
    split at h
    · split at h
      · simp only [Except.ok.injEq, Prod.mk.injEq] at h
        rename_i hlt _
        omega
      · have := ih data _ _ _ v q h
        omega
    · simp at h

theorem readVarintLoop_fuel : ∀ (f1 f2 : Nat) (data : List Nat) (result shift pos : Nat),
    data.length - pos < f1 → data.length - pos < f2 →
    readVarintLoop f1 data result shift pos = readVarintLoop f2 data result shift pos := by
  intro f1
  induction f1 with
  | zero => intro f2 data r s p h1 h2; omega
  | succ f1 ih =>
    intro f2 data r s p h1 h2
    obtain ⟨f2, rfl⟩ : ∃ g, f2 = g + 1 := ⟨f2 - 1, by omega⟩
    simp only [readVarintLoop]
    split
    · rename_i hp
      split
      · rfl
      · exact ih f2 data _ _ _ (by omega) (by omega)
    · rfl

theorem readVarintLoop_append : ∀ (fuel : Nat) (pre data : List Nat) (result shift p : Nat),
    readVarintLoop fuel (pre ++ data) result shift (pre.length + p) =
      (readVarintLoop fuel data result shift p).map (fun r => (r.1, pre.length + r.2)) := by
  intro fuel
  induction fuel with
  | zero => intro pre data r s p; simp [readVarintLoop, Except.map]
  | succ fuel ih =>
    intro pre data r s p
    by_cases hp : p < data.length
    · have hp' : pre.length + p < (pre ++ data).length := by
        simp [List.length_append]; omega
      have hget : (pre ++ data)[pre.length + p] = data[p] := by
        rw [List.getElem_append_right (by omega)]
        congr 1
        omega
      simp only [readVarintLoop, dif_pos hp', dif_pos hp, hget]
      by_cases hb : data[p] &&& 0x80 = 0
      · simp [hb, Except.map]
        omega
      · simp only [if_neg hb]
        have := ih pre data (r ||| ((data[p] &&& 0x7F) <<< s)) (s + 7) (p + 1)
        rw [show pre.length + p + 1 = pre.length + (p + 1) by omega]
        exact this
    · have hp' : ¬ pre.length + p < (pre ++ data).length := by
        simp [List.length_append]; omega
      simp only [readVarintLoop, dif_neg hp', dif_neg hp]
      simp [Except.map]

theorem readVarintLoop_extend : ∀ (f1 f2 : Nat) (data junk : List Nat)
    (result shift p : Nat) (res : Nat × Nat), f1 ≤ f2 →
    readVarintLoop f1 data result shift p = .ok res →
    readVarintLoop f2 (data ++ junk) result shift p = .ok res := by
  intro f1
  induction f1 with
  | zero =>
    intro f2 data junk r s p res _ h
    simp [readVarintLoop] at h
  | succ f1 ih =>
    intro f2 data junk r s p res hle h
    obtain ⟨f2, rfl⟩ : ∃ g, f2 = g + 1 := ⟨f2 - 1, by omega⟩
    simp only [readVarintLoop] at h
    split at h
    · rename_i hp
      have hp' : p < (data ++ junk).length := by simp [List.length_append]; omega
      have hget : (data ++ junk)[p] = data[p] := List.getElem_append_left _
      simp only [readVarintLoop, dif_pos hp', hget]
      split at h
      · rename_i hb
        rw [if_pos hb]
        exact h
      · rename_i hb
        rw [if_neg hb]
        exact ih f2 data junk _ _ _ res (by omega) h
    · simp at h

theorem read_varint_bound {data : List Nat} {offset v q : Nat}
    (h : read_varint data offset = .ok (v, q)) : offset < q ∧ q ≤ data.length :=
  readVarintLoop_bound _ data 0 0 offset v q h

theorem read_varint_extend {data : List Nat} {offset : Nat} {res : Nat × Nat}
    (junk : List Nat) (h : read_varint data offset = .ok res) :
    read_varint (data ++ junk) offset = .ok res := by
  unfold read_varint at h ⊢
  exact readVarintLoop_extend _ _ data junk 0 0 offset res
    (by simp [List.length_append]) h

/-!
Bit arithmetic for the base-128 round trip.
-/

theorem byte_lt128_and : ∀ m, m < 128 → m &&& 127 = m ∧ m &&& 128 = 0 := by decide

theorem byte_ge128_and : ∀ m, m < 128 → (m + 128) &&& 127 = m ∧ (m + 128) &&& 128 = 128 := by
  decide

theorem testBit_add_mul_two_pow (u v s j : Nat) (hu : u < 2^s) :
    (u + v * 2^s).testBit j = if j < s then u.testBit j else v.testBit (j - s) := by
  rcases Nat.lt_or_ge j s with hj | hj
  · rw [if_pos hj, Nat.testBit_to_div_mod, Nat.testBit_to_div_mod]
    have h2 : (2:Nat)^(s - j - 1) * 2 * 2^j = 2^s := by
      rw [← pow_succ, ← pow_add]
      congr 1
      omega
    have hsj : v * 2^s = v * 2^(s - j - 1) * 2 * 2^j := by
      rw [← h2]
      ring
    rw [hsj, Nat.add_mul_div_right _ _ (Nat.two_pow_pos j),
      Nat.add_mul_mod_self_right]
  · rw [if_neg (by omega), Nat.testBit_to_div_mod, Nat.testBit_to_div_mod]
    have hpow : (2:Nat)^j = 2^s * 2^(j - s) := by
      rw [← pow_add]
      congr 1
      omega
    rw [hpow, ← Nat.div_div_eq_div_mul, Nat.add_mul_div_right _ _ (Nat.two_pow_pos s),
      Nat.div_eq_of_lt hu, Nat.zero_add]

theorem or_shift_eq_add (u v s : Nat) (hu : u < 2^s) : u ||| (v <<< s) = u + v * 2^s := by
  apply Nat.eq_of_testBit_eq
  intro j
  rw [Nat.testBit_or, Nat.testBit_shiftLeft, testBit_add_mul_two_pow u v s j hu]
  by_cases hj : j < s
  · have hns : ¬ (j ≥ s) := by omega
    simp [hj, hns]
  · have hs : j ≥ s := by omega
    have hu' : u < 2^j := lt_of_lt_of_le hu (Nat.pow_le_pow_right (by omega) (by omega))
    simp [hj, hs, Nat.testBit_lt_two_pow hu']

theorem varint_step_or (n shift : Nat) :
    ((n % 128) <<< shift) ||| ((n / 128) <<< (shift + 7)) = n <<< shift := by
  have hm : n % 128 < 128 := Nat.mod_lt _ (by omega)
  have hu : (n % 128) <<< shift < 2^(shift + 7) := by
    rw [Nat.shiftLeft_eq, pow_add]
    calc (n % 128) * 2^shift < 128 * 2^shift :=
          (Nat.mul_lt_mul_right (Nat.two_pow_pos shift)).mpr hm
      _ = 2^shift * 2^7 := by ring
  rw [or_shift_eq_add _ _ _ hu, Nat.shiftLeft_eq, Nat.shiftLeft_eq]
  conv_rhs => rw [← Nat.mod_add_div n 128]
  rw [pow_add]
  ring

theorem encVarint_eq_single {n : Nat} (h : n < 128) : encVarint n = [n] := by
  rw [encVarint]
  simp [h]

theorem encVarint_eq_cons {n : Nat} (h : ¬ n < 128) :
    encVarint n = (n % 128 + 128) :: encVarint (n / 128) := by
  rw [encVarint]
  simp [h]

theorem readVarintLoop_enc (n : Nat) : ∀ (fuel : Nat) (rest : List Nat) (acc shift : Nat),
    (encVarint n).length < fuel →
    readVarintLoop fuel (encVarint n ++ rest) acc shift 0 =
      .ok (acc ||| (n <<< shift), (encVarint n).length) := by
  induction n using Nat.strong_induction_on with
  | _ n ih =>
    intro fuel rest acc shift hf
    by_cases h : n < 128
    · rw [encVarint_eq_single h] at hf ⊢
      obtain ⟨f, rfl⟩ : ∃ g, fuel = g + 1 := ⟨fuel - 1, by omega⟩
      have hlen : 0 < ([n] ++ rest).length := by simp
      have hget : ([n] ++ rest)[0] = n := by simp
      simp only [readVarintLoop, dif_pos hlen, hget]
      rw [if_pos (byte_lt128_and n h).2, (byte_lt128_and n h).1]
      simp
    · rw [encVarint_eq_cons h] at hf ⊢
      obtain ⟨f, rfl⟩ : ∃ g, fuel = g + 1 := ⟨fuel - 1, by omega⟩
      have hm : n % 128 < 128 := Nat.mod_lt _ (by omega)
      have hlen : 0 < (((n % 128 + 128) :: encVarint (n / 128)) ++ rest).length := by simp
      have hget : (((n % 128 + 128) :: encVarint (n / 128)) ++ rest)[0] = n % 128 + 128 := by
        simp
      simp only [readVarintLoop, dif_pos hlen, hget]
      rw [if_neg (by rw [(byte_ge128_and _ hm).2]; omega), (byte_ge128_and _ hm).1]
      have hsplit : ((n % 128 + 128) :: encVarint (n / 128)) ++ rest =
          [n % 128 + 128] ++ (encVarint (n / 128) ++ rest) := by simp
      rw [hsplit]
      have hreb := readVarintLoop_append f [n % 128 + 128] (encVarint (n / 128) ++ rest)
        (acc ||| ((n % 128) <<< shift)) (shift + 7) 0
      simp only [List.length_singleton] at hreb
      rw [show (1 : Nat) = 1 + 0 by rfl] at hreb ⊢
      rw [hreb]
      rw [ih (n / 128) (Nat.div_lt_self (by omega) (by omega)) f rest _ _
        (by simp at hf ⊢; omega)]
      simp only [Except.map]
      rw [Nat.or_assoc, varint_step_or]
      simp [Nat.add_comm]

theorem read_varint_enc (pre rest : List Nat) (n : Nat) :
    read_varint (pre ++ (encVarint n ++ rest)) pre.length =
      .ok (n, pre.length + (encVarint n).length) := by
  unfold read_varint
  have hreb := readVarintLoop_append ((pre ++ (encVarint n ++ rest)).length + 1) pre
    (encVarint n ++ rest) 0 0 0
  simp only [Nat.add_zero] at hreb
  rw [hreb, readVarintLoop_enc n _ rest 0 0 (by simp [List.length_append]; omega)]
  simp [Except.map, Nat.zero_or, Nat.shiftLeft_zero]

theorem read_varint_oob (data : List Nat) (offset : Nat) (h : data.length ≤ offset) :
    read_varint data offset = .error .incompleteVarint := by
  unfold read_varint
  simp only [readVarintLoop]
  rw [dif_neg (by omega)]

theorem readVarintLoop_all_cont (data : List Nat) : ∀ (fuel result shift pos : Nat),
    (∀ i, (hi : i < data.length) → pos ≤ i → data[i] &&& 0x80 ≠ 0) →
    readVarintLoop fuel data result shift pos = .error .incompleteVarint := by
  intro fuel
  induction fuel with
  | zero => intro r s p _; simp [readVarintLoop]
  | succ fuel ih =>
    intro r s p hcont
    by_cases hp : p < data.length
    · simp only [readVarintLoop, dif_pos hp]
      rw [if_neg (hcont p hp (le_refl p))]
      exact ih _ _ _ (fun i hi hpi => hcont i hi (by omega))
    · simp only [readVarintLoop, dif_neg hp]

theorem read_varint_all_cont (data : List Nat) (offset : Nat)
    (hcont : ∀ i, (hi : i < data.length) → offset ≤ i → data[i] &&& 0x80 ≠ 0) :
    read_varint data offset = .error .incompleteVarint :=
  readVarintLoop_all_cont data _ 0 0 offset hcont

theorem read_varint_rebase (data junk : List Nat) :
    read_varint (data ++ junk) data.length =
      (read_varint junk 0).map (fun r => (r.1, data.length + r.2)) := by
  unfold read_varint
  have hreb := readVarintLoop_append ((data ++ junk).length + 1) data junk 0 0 0
  simp only [Nat.add_zero] at hreb
  rw [hreb, readVarintLoop_fuel ((data ++ junk).length + 1) (junk.length + 1) junk 0 0 0
    (by simp [List.length_append]; omega) (by omega)]

theorem skip_field_extend (junk : List Nat) {data : List Nat} {offset wire next : Nat}
    (h : skip_field data offset wire = .ok next) :
    skip_field (data ++ junk) offset wire = .ok next := by
  unfold skip_field at h ⊢
  by_cases h0 : wire = 0
  · simp only [if_pos h0] at h ⊢
    cases hrv : read_varint data offset with
    | error e => rw [hrv] at h; simp at h
    | ok r =>
      obtain ⟨v, nx⟩ := r
      rw [hrv] at h
      rw [read_varint_extend junk hrv]
      exact h
  · simp only [if_neg h0] at h ⊢
    by_cases h1 : wire = 1
    · simp only [if_pos h1] at h ⊢; exact h
    · simp only [if_neg h1] at h ⊢
      by_cases h2 : wire = 2
      · simp only [if_pos h2] at h ⊢
        cases hrv : read_varint data offset with
        | error e => rw [hrv] at h; simp at h
        | ok r =>
          obtain ⟨len, c⟩ := r
          rw [hrv] at h
          rw [read_varint_extend junk hrv]
          exact h
      · simp only [if_neg h2] at h ⊢
        by_cases h5 : wire = 5
        · simp only [if_pos h5] at h ⊢; exact h
        · simp only [if_neg h5] at h ⊢; exact h

theorem findAlign : ∀ (fuel : Nat) (data : List Nat) (target offset : Nat)
    (fields : List RawField), scanFieldsLoop fuel data offset = some fields →
    findFieldLoop fuel data target offset = .ok (firstMatch target fields) := by
  intro fuel
  induction fuel with
  | zero => intro data target offset fields h; simp [scanFieldsLoop] at h
  | succ fuel ih =>
    intro data target offset fields h
    simp only [scanFieldsLoop] at h
    simp only [findFieldLoop]
    by_cases hoff : offset < data.length
    · rw [if_pos hoff] at h ⊢
      cases hrv : read_varint data offset with
      | error e => simp only [hrv] at h; simp at h
      | ok r =>
        obtain ⟨tag, tagEnd⟩ := r
        simp only [hrv] at h ⊢
        by_cases hw0 : tag &&& 7 = 0
        · rw [if_pos hw0] at h
          cases hrv2 : read_varint data tagEnd with
          | error e => simp only [hrv2] at h; simp at h
          | ok r2 =>
            obtain ⟨v2, next⟩ := r2
            simp only [hrv2] at h
            cases hscan : scanFieldsLoop fuel data next with
            | none => simp only [hscan] at h; simp at h
            | some fs =>
              simp only [hscan, Option.map_some', Option.some.injEq] at h
              subst h
              rw [if_neg (by rw [hw0]; simp)]
              have hskip : skip_field data tagEnd (tag &&& 7) = .ok next := by
                rw [hw0]
                simp [skip_field, hrv2]
              simp only [hskip, ih data target next fs hscan]
              simp [firstMatch, hw0]
        · rw [if_neg hw0] at h
          by_cases hw1 : tag &&& 7 = 1
          · rw [if_pos hw1] at h
            split at h
            · cases hscan : scanFieldsLoop fuel data (tagEnd + 8) with
              | none => simp only [hscan] at h; simp at h
              | some fs =>
                simp only [hscan, Option.map_some', Option.some.injEq] at h
                subst h
                rw [if_neg (by rw [hw1]; simp)]
                have hskip : skip_field data tagEnd (tag &&& 7) = .ok (tagEnd + 8) := by
                  rw [hw1]
                  simp [skip_field]
                simp only [hskip, ih data target (tagEnd + 8) fs hscan]
                simp [firstMatch, hw1]
            · simp at h
          · rw [if_neg hw1] at h
            by_cases hw2 : tag &&& 7 = 2
            · rw [if_pos hw2] at h
              cases hrv2 : read_varint data tagEnd with
              | error e => simp only [hrv2] at h; simp at h
              | ok r2 =>
                obtain ⟨len, contentOff⟩ := r2
                simp only [hrv2] at h
                split at h
                · cases hscan : scanFieldsLoop fuel data (contentOff + len) with
                  | none => simp only [hscan] at h; simp at h
                  | some fs =>
                    simp only [hscan, Option.map_some', Option.some.injEq] at h
                    subst h
                    by_cases hnum : tag >>> 3 = target
                    · rw [if_pos (by exact ⟨hnum, hw2⟩)]
                      simp only [hrv2]
                      simp [firstMatch, hnum, hw2]
                    · rw [if_neg (by intro hc; exact hnum hc.1)]
                      have hskip : skip_field data tagEnd (tag &&& 7) = .ok (contentOff + len) := by
                        rw [hw2]
                        simp [skip_field, hrv2]
                      simp only [hskip, ih data target (contentOff + len) fs hscan]
                      simp [firstMatch, hnum]
                · simp at h
            · rw [if_neg hw2] at h
              by_cases hw5 : tag &&& 7 = 5
              · rw [if_pos hw5] at h
                split at h
                · cases hscan : scanFieldsLoop fuel data (tagEnd + 4) with
                  | none => simp only [hscan] at h; simp at h
                  | some fs =>
                    simp only [hscan, Option.map_some', Option.some.injEq] at h
                    subst h
                    rw [if_neg (by rw [hw5]; simp)]
                    have hskip : skip_field data tagEnd (tag &&& 7) = .ok (tagEnd + 4) := by
                      rw [hw5]
                      simp [skip_field]
                    simp only [hskip, ih data target (tagEnd + 4) fs hscan]
                    simp [firstMatch, hw5]
                · simp at h
              · rw [if_neg hw5] at h
                simp at h
    · rw [if_neg hoff] at h ⊢
      simp only [Option.some.injEq] at h
      subst h
      simp [firstMatch]

theorem parseAlign : ∀ (fuel : Nat) (data : List Nat) (offset : Nat)
    (info : List (String × PyVal)) (fields : List RawField),
    scanFieldsLoop fuel data offset = some fields →
    parseLoop fuel data offset info = foldDispatch info fields := by
  intro fuel
  induction fuel with
  | zero => intro data offset info fields h; simp [scanFieldsLoop] at h
  | succ fuel ih =>
    intro data offset info fields h
    simp only [scanFieldsLoop] at h
    simp only [parseLoop]
    by_cases hoff : offset < data.length
    · rw [if_pos hoff] at h ⊢
      cases hrv : read_varint data offset with
      | error e => simp only [hrv] at h; simp at h
      | ok r =>
        obtain ⟨tag, tagEnd⟩ := r
        simp only [hrv] at h ⊢
        by_cases hw0 : tag &&& 7 = 0
        · rw [if_pos hw0] at h
          cases hrv2 : read_varint data tagEnd with
          | error e => simp only [hrv2] at h; simp at h
          | ok r2 =>
            obtain ⟨v2, next⟩ := r2
            simp only [hrv2] at h
            cases hscan : scanFieldsLoop fuel data next with
            | none => simp only [hscan] at h; simp at h
            | some fs =>
              simp only [hscan, Option.map_some', Option.some.injEq] at h
              subst h
              rw [if_neg (by rw [hw0]; simp)]
              have hskip : skip_field data tagEnd (tag &&& 7) = .ok next := by
                rw [hw0]
                simp [skip_field, hrv2]
              simp only [hskip, ih data next info fs hscan]
              simp [foldDispatch, dispatchField, hw0]
        · rw [if_neg hw0] at h
          by_cases hw1 : tag &&& 7 = 1
          · rw [if_pos hw1] at h
            split at h
            · cases hscan : scanFieldsLoop fuel data (tagEnd + 8) with
              | none => simp only [hscan] at h; simp at h
              | some fs =>
                simp only [hscan, Option.map_some', Option.some.injEq] at h
                subst h
                rw [if_neg (by rw [hw1]; simp)]
                have hskip : skip_field data tagEnd (tag &&& 7) = .ok (tagEnd + 8) := by
                  rw [hw1]
                  simp [skip_field]
                simp only [hskip, ih data (tagEnd + 8) info fs hscan]
                simp [foldDispatch, dispatchField, hw1]
            · simp at h
          · rw [if_neg hw1] at h
            by_cases hw2 : tag &&& 7 = 2
            · rw [if_pos hw2] at h
              cases hrv2 : read_varint data tagEnd with
              | error e => simp only [hrv2] at h; simp at h
              | ok r2 =>
                obtain ⟨len, contentOff⟩ := r2
                simp only [hrv2] at h
                split at h
                · cases hscan : scanFieldsLoop fuel data (contentOff + len) with
                  | none => simp only [hscan] at h; simp at h
                  | some fs =>
                    simp only [hscan, Option.map_some', Option.some.injEq] at h
                    subst h
                    rw [if_pos hw2]
                    simp only [hrv2]
                    by_cases hn1 : tag >>> 3 = 1
                    · rw [if_pos hn1]
                      cases hdec : utf8DecodeStr ((data.drop contentOff).take len) with
                      | none =>
                        simp only [hdec]
                        simp [foldDispatch, dispatchField, hn1, hdec]
                      | some s =>
                        simp only [hdec, ih data (contentOff + len) _ fs hscan]
                        simp [foldDispatch, dispatchField, hn1, hdec]
                    · rw [if_neg hn1]
                      by_cases hn2 : tag >>> 3 = 2
                      · rw [if_pos hn2]
                        cases hdec : utf8DecodeStr ((data.drop contentOff).take len) with
                        | none =>
                          simp only [hdec]
                          simp [foldDispatch, dispatchField, hn1, hn2, hdec]
                        | some s =>
                          simp only [hdec, ih data (contentOff + len) _ fs hscan]
                          simp [foldDispatch, dispatchField, hn1, hn2, hdec]
                      · rw [if_neg hn2]
                        by_cases hn3 : tag >>> 3 = 3
                        · rw [if_pos hn3]
                          cases hdec : utf8DecodeStr ((data.drop contentOff).take len) with
                          | none =>
                            simp only [hdec]
                            simp [foldDispatch, dispatchField, hn1, hn2, hn3, hdec]
                          | some s =>
                            simp only [hdec, ih data (contentOff + len) _ fs hscan]
                            simp [foldDispatch, dispatchField, hn1, hn2, hn3, hdec]
                        · rw [if_neg hn3]
                          by_cases hn4 : tag >>> 3 = 4
                          · rw [if_pos hn4]
                            cases hts : parse_timestamp ((data.drop contentOff).take len) with
                            | error e =>
                              simp only [hts]
                              simp [foldDispatch, dispatchField, hn1, hn2, hn3, hn4, hts]
                            | ok t =>
                              simp only [hts, ih data (contentOff + len) _ fs hscan]
                              simp [foldDispatch, dispatchField, hn1, hn2, hn3, hn4, hts]
                          · rw [if_neg hn4]
                            simp only [ih data (contentOff + len) info fs hscan]
                            simp [foldDispatch, dispatchField, hn1, hn2, hn3, hn4]
                · simp at h
            · rw [if_neg hw2] at h
              by_cases hw5 : tag &&& 7 = 5
              · rw [if_pos hw5] at h
                split at h
                · cases hscan : scanFieldsLoop fuel data (tagEnd + 4) with
                  | none => simp only [hscan] at h; simp at h
                  | some fs =>
                    simp only [hscan, Option.map_some', Option.some.injEq] at h
                    subst h
                    rw [if_neg (by rw [hw5]; simp)]
                    have hskip : skip_field data tagEnd (tag &&& 7) = .ok (tagEnd + 4) := by
                      rw [hw5]
                      simp [skip_field]
                    simp only [hskip, ih data (tagEnd + 4) info fs hscan]
                    simp [foldDispatch, dispatchField, hw5]
                · simp at h
              · rw [if_neg hw5] at h
                simp at h
    · rw [if_neg hoff] at h ⊢
      simp only [Option.some.injEq] at h
      subst h
      simp [foldDispatch]

theorem assignsAlign : ∀ (fuel : Nat) (data : List Nat) (offset : Nat)
    (info : List (String × PyVal)),
    parseLoop fuel data offset info =
      (assignsLoop fuel data offset).map
        (fun l => l.foldl (fun d kv => dictSet d kv.1 kv.2) info) := by
  intro fuel
  induction fuel with
  | zero => intro data offset info; simp [parseLoop, assignsLoop, Except.map]
  | succ fuel ih =>
    intro data offset info
    simp only [parseLoop, assignsLoop]
    by_cases hoff : offset < data.length
    · cases hrv : read_varint data offset with
      | error e => simp [hoff, hrv, Except.map]
      | ok r =>
        obtain ⟨tag, tagEnd⟩ := r
        by_cases hw2 : tag &&& 7 = 2
        · cases hrv2 : read_varint data tagEnd with
          | error e => simp [hoff, hrv, hw2, hrv2, Except.map]
          | ok r2 =>
            obtain ⟨len, contentOff⟩ := r2
            by_cases hn1 : tag >>> 3 = 1
            · cases hdec : utf8DecodeStr ((data.drop contentOff).take len) with
              | none => simp [hoff, hrv, hw2, hrv2, hn1, hdec, Except.map]
              | some s =>
                rw [if_pos hoff]
                simp only [hrv, hw2, if_pos rfl, hrv2, hn1, hdec]
                rw [ih data (contentOff + len) (dictSet info "access_token" (.pstr s))]
                cases hal : assignsLoop fuel data (contentOff + len) with
                | error e => simp [hoff, hrv, hw2, hrv2, hn1, hdec, hal, Except.map]
                | ok l => simp [hoff, hrv, hw2, hrv2, hn1, hdec, hal, Except.map]
            · by_cases hn2 : tag >>> 3 = 2
              · cases hdec : utf8DecodeStr ((data.drop contentOff).take len) with
                | none => simp [hoff, hrv, hw2, hrv2, hn1, hn2, hdec, Except.map]
                | some s =>
                  rw [if_pos hoff]
                  simp only [hrv, hw2, if_pos rfl, hrv2, hn1, if_neg hn1, hn2, hdec]
                  rw [ih data (contentOff + len) (dictSet info "token_type" (.pstr s))]
                  cases hal : assignsLoop fuel data (contentOff + len) with
                  | error e => simp [hoff, hrv, hw2, hrv2, hn1, hn2, hdec, hal, Except.map]
                  | ok l => simp [hoff, hrv, hw2, hrv2, hn1, hn2, hdec, hal, Except.map]
              · by_cases hn3 : tag >>> 3 = 3
                · cases hdec : utf8DecodeStr ((data.drop contentOff).take len) with
                  | none => simp [hoff, hrv, hw2, hrv2, hn1, hn2, hn3, hdec, Except.map]
                  | some s =>
                    rw [if_pos hoff]
                    simp only [hrv, hw2, if_pos rfl, hrv2, if_neg hn1, if_neg hn2, hn3, hdec]
                    rw [ih data (contentOff + len) (dictSet info "refresh_token" (.pstr s))]
                    cases hal : assignsLoop fuel data (contentOff + len) with
                    | error e => simp [hoff, hrv, hw2, hrv2, hn1, hn2, hn3, hdec, hal, Except.map]
                    | ok l => simp [hoff, hrv, hw2, hrv2, hn1, hn2, hn3, hdec, hal, Except.map]
                · by_cases hn4 : tag >>> 3 = 4
                  · cases hts : parse_timestamp ((data.drop contentOff).take len) with
                    | error e => simp [hoff, hrv, hw2, hrv2, hn1, hn2, hn3, hn4, hts, Except.map]
                    | ok t =>
                      rw [if_pos hoff]
                      simp only [hrv, hw2, if_pos rfl, hrv2, if_neg hn1, if_neg hn2,
                        if_neg hn3, hn4, hts]
                      rw [ih data (contentOff + len) (dictSet info "expiry_seconds" (pyOfTs t))]
                      cases hal : assignsLoop fuel data (contentOff + len) with
                      | error e =>
                        simp [hoff, hrv, hw2, hrv2, hn1, hn2, hn3, hn4, hts, hal, Except.map]
                      | ok l =>
                        simp [hoff, hrv, hw2, hrv2, hn1, hn2, hn3, hn4, hts, hal, Except.map]
                  · rw [if_pos hoff]
                    simp only [hrv, hw2, if_pos rfl, hrv2, if_neg hn1, if_neg hn2, if_neg hn3,
                      if_neg hn4]
                    rw [ih data (contentOff + len) info]
                    simp [hoff]
        · cases hskip : skip_field data tagEnd (tag &&& 7) with
          | error e => simp [hoff, hrv, hw2, hskip, Except.map]
          | ok next =>
            rw [if_pos hoff]
            simp only [hrv, if_neg hw2, hskip]
            rw [ih data next info]
            simp [hoff]
    · simp [hoff, Except.map]

/-!
Dict lookup lemmas.
-/

theorem lookup_dictSet_self (d : List (String × PyVal)) (k : String) (v : PyVal) :
    (dictSet d k v).lookup k = some v := by
  induction d with
  | nil => simp [dictSet, List.lookup]
  | cons kv d ih =>
    obtain ⟨k1, v1⟩ := kv
    by_cases hk : k1 = k
    · simp [dictSet, hk, List.lookup]
    · have hbeq : (k == k1) = false := by
        simp only [beq_eq_false_iff_ne, ne_eq]
        exact fun he => hk he.symm
      simp only [dictSet, if_neg hk, List.lookup, hbeq]
      exact ih

theorem lookup_dictSet_other (d : List (String × PyVal)) (k k2 : String) (v : PyVal)
    (hne : k2 ≠ k) : (dictSet d k v).lookup k2 = d.lookup k2 := by
  have hbk : (k2 == k) = false := by simp only [beq_eq_false_iff_ne, ne_eq]; exact hne
  induction d with
  | nil => simp [dictSet, List.lookup, hbk]
  | cons kv d ih =>
    obtain ⟨k1, v1⟩ := kv
    by_cases hk : k1 = k
    · subst hk
      simp [dictSet, List.lookup, hbk]
    · simp only [dictSet, if_neg hk, List.lookup]
      by_cases hk2 : k2 = k1
      · subst hk2
        simp
      · have hb2 : (k2 == k1) = false := by simp only [beq_eq_false_iff_ne, ne_eq]; exact hk2
        simp only [hb2]
        exact ih

theorem lookup_foldl_dictSet : ∀ (l : List (String × PyVal)) (d : List (String × PyVal))
    (k : String),
    (l.foldl (fun d kv => dictSet d kv.1 kv.2) d).lookup k =
      match lastAssign k l with
      | some v => some v
      | none => d.lookup k := by
  intro l
  induction l with
  | nil => intro d k; simp [lastAssign]
  | cons kv l ih =>
    intro d k
    obtain ⟨k1, v1⟩ := kv
    simp only [List.foldl_cons, lastAssign]
    rw [ih]
    cases hla : lastAssign k l with
    | some v => simp
    | none =>
      simp only []
      by_cases hk : k1 = k
      · subst hk
        rw [if_pos rfl, lookup_dictSet_self]
      · rw [if_neg hk, lookup_dictSet_other d k1 k v1 (fun he => hk he.symm)]

theorem take_drop_append (data junk : List Nat) (c len : Nat) (h : c + len ≤ data.length) :
    ((data ++ junk).drop c).take len = (data.drop c).take len := by
  rw [List.drop_append_of_le_length (by omega)]
  rw [List.take_append_of_le_length (by simp [List.length_drop]; omega)]

theorem findAlignExt : ∀ (fuel : Nat) (data junk : List Nat) (target offset : Nat)
    (fields : List RawField) (e : DecodeErr), offset ≤ data.length →
    scanFieldsLoop fuel data offset = some fields →
    read_varint junk 0 = .error e →
    findFieldLoop fuel (data ++ junk) target offset = .ok (firstMatch target fields) := by
  intro fuel
  induction fuel with
  | zero => intro data junk target offset fields e _ h _; simp [scanFieldsLoop] at h
  | succ fuel ih =>
    intro data junk target offset fields e hoffle h hjunk
    simp only [scanFieldsLoop] at h
    simp only [findFieldLoop]
    by_cases hoff : offset < data.length
    · rw [if_pos hoff] at h
      have hg : offset < (data ++ junk).length := by simp [List.length_append]; omega
      rw [if_pos hg]
      cases hrv : read_varint data offset with
      | error er => simp only [hrv] at h; simp at h
      | ok r =>
        obtain ⟨tag, tagEnd⟩ := r
        have hrvx := read_varint_extend junk hrv
        simp only [hrv] at h
        simp only [hrvx]
        by_cases hw0 : tag &&& 7 = 0
        · rw [if_pos hw0] at h
          cases hrv2 : read_varint data tagEnd with
          | error er => simp only [hrv2] at h; simp at h
          | ok r2 =>
            obtain ⟨v2, next⟩ := r2
            simp only [hrv2] at h
            cases hscan : scanFieldsLoop fuel data next with
            | none => simp only [hscan] at h; simp at h
            | some fs =>
              simp only [hscan, Option.map_some', Option.some.injEq] at h
              subst h
              rw [if_neg (by rw [hw0]; simp)]
              have hskip : skip_field data tagEnd (tag &&& 7) = .ok next := by
                rw [hw0]
                simp [skip_field, hrv2]
              have hnextle : next ≤ data.length := (read_varint_bound hrv2).2
              simp only [skip_field_extend junk hskip,
                ih data junk target next fs e hnextle hscan hjunk]
              simp [firstMatch, hw0]
        · rw [if_neg hw0] at h
          by_cases hw1 : tag &&& 7 = 1
          · rw [if_pos hw1] at h
            split at h
            · rename_i hbound
              cases hscan : scanFieldsLoop fuel data (tagEnd + 8) with
              | none => simp only [hscan] at h; simp at h
              | some fs =>
                simp only [hscan, Option.map_some', Option.some.injEq] at h
                subst h
                rw [if_neg (by rw [hw1]; simp)]
                have hskip : skip_field data tagEnd (tag &&& 7) = .ok (tagEnd + 8) := by
                  rw [hw1]
                  simp [skip_field]
                simp only [skip_field_extend junk hskip,
                  ih data junk target (tagEnd + 8) fs e hbound hscan hjunk]
                simp [firstMatch, hw1]
            · simp at h
          · rw [if_neg hw1] at h
            by_cases hw2 : tag &&& 7 = 2
            · rw [if_pos hw2] at h
              cases hrv2 : read_varint data tagEnd with
              | error er => simp only [hrv2] at h; simp at h
              | ok r2 =>
                obtain ⟨len, contentOff⟩ := r2
                simp only [hrv2] at h
                split at h
                · rename_i hbound
                  cases hscan : scanFieldsLoop fuel data (contentOff + len) with
                  | none => simp only [hscan] at h; simp at h
                  | some fs =>
                    simp only [hscan, Option.map_some', Option.some.injEq] at h
                    subst h
                    by_cases hnum : tag >>> 3 = target
                    · rw [if_pos (by exact ⟨hnum, hw2⟩)]
                      simp only [read_varint_extend junk hrv2]
                      rw [take_drop_append data junk contentOff len hbound]
                      simp [firstMatch, hnum, hw2]
                    · rw [if_neg (by intro hc; exact hnum hc.1)]
                      have hskip : skip_field data tagEnd (tag &&& 7) = .ok (contentOff + len) := by
                        rw [hw2]
                        simp [skip_field, hrv2]
                      simp only [skip_field_extend junk hskip,
                        ih data junk target (contentOff + len) fs e hbound hscan hjunk]
                      simp [firstMatch, hnum]
                · simp at h
            · rw [if_neg hw2] at h
              by_cases hw5 : tag &&& 7 = 5
              · rw [if_pos hw5] at h
                split at h
                · rename_i hbound
                  cases hscan : scanFieldsLoop fuel data (tagEnd + 4) with
                  | none => simp only [hscan] at h; simp at h
                  | some fs =>
                    simp only [hscan, Option.map_some', Option.some.injEq] at h
                    subst h
                    rw [if_neg (by rw [hw5]; simp)]
                    have hskip : skip_field data tagEnd (tag &&& 7) = .ok (tagEnd + 4) := by
                      rw [hw5]
                      simp [skip_field]
                    simp only [skip_field_extend junk hskip,
                      ih data junk target (tagEnd + 4) fs e hbound hscan hjunk]
                    simp [firstMatch, hw5]
                · simp at h
              · rw [if_neg hw5] at h
                simp at h
    · rw [if_neg hoff] at h
      simp only [Option.some.injEq] at h
      subst h
      have hoffeq : offset = data.length := by omega
      subst hoffeq
      by_cases hg : data.length < (data ++ junk).length
      · have herr : read_varint (data ++ junk) data.length = .error e := by
          rw [read_varint_rebase data junk, hjunk]
          rfl
        rw [if_pos hg]
        simp only [herr]
        simp [firstMatch]
      · rw [if_neg hg]
        simp [firstMatch]

theorem findFieldLoop_slice : ∀ (fuel : Nat) (data : List Nat) (target offset : Nat)
    (r : List Nat), findFieldLoop fuel data target offset = .ok (some r) →
    ∃ c len, r = (data.drop c).take len := by
  intro fuel
  induction fuel with
  | zero => intro data target offset r h; simp [findFieldLoop] at h
  | succ fuel ih =>
    intro data target offset r h
    simp only [findFieldLoop] at h
    split at h
    · cases hrv : read_varint data offset with
      | error e => simp only [hrv] at h; simp at h
      | ok p =>
        obtain ⟨tag, tagEnd⟩ := p
        simp only [hrv] at h
        split at h
        · cases hrv2 : read_varint data tagEnd with
          | error e => simp only [hrv2] at h; simp at h
          | ok p2 =>
            obtain ⟨len, contentOff⟩ := p2
            simp only [hrv2, Except.ok.injEq, Option.some.injEq] at h
            exact ⟨contentOff, len, h.symm⟩
        · cases hskip : skip_field data tagEnd (tag &&& 7) with
          | error e => simp only [hskip] at h; simp at h
          | ok next =>
            simp only [hskip] at h
            exact ih data target next r h
    · simp at h

theorem scanFieldsLoop_mono : ∀ (f1 f2 : Nat) (data : List Nat) (offset : Nat)
    (fields : List RawField), f1 ≤ f2 →
    scanFieldsLoop f1 data offset = some fields →
    scanFieldsLoop f2 data offset = some fields := by
  intro f1
  induction f1 with
  | zero => intro f2 data offset fields _ h; simp [scanFieldsLoop] at h
  | succ f1 ih =>
    intro f2 data offset fields hle h
    obtain ⟨f2, rfl⟩ : ∃ g, f2 = g + 1 := ⟨f2 - 1, by omega⟩
    simp only [scanFieldsLoop] at h ⊢
    by_cases hoff : offset < data.length
    · rw [if_pos hoff] at h ⊢
      cases hrv : read_varint data offset with
      | error e => simp only [hrv] at h; simp at h
      | ok r =>
        obtain ⟨tag, tagEnd⟩ := r
        simp only [hrv] at h ⊢
        by_cases hw0 : tag &&& 7 = 0
        · rw [if_pos hw0] at h ⊢
          cases hrv2 : read_varint data tagEnd with
          | error e => simp only [hrv2] at h; simp at h
          | ok r2 =>
            obtain ⟨v2, next⟩ := r2
            simp only [hrv2] at h ⊢
            cases hscan : scanFieldsLoop f1 data next with
            | none => simp only [hscan] at h; simp at h
            | some fs =>
              simp only [hscan, Option.map_some', Option.some.injEq] at h
              rw [ih f2 data next fs (by omega) hscan]
              simp [h]
        · rw [if_neg hw0] at h ⊢
          by_cases hw1 : tag &&& 7 = 1
          · rw [if_pos hw1] at h ⊢
            split at h
            · rename_i hbound
              rw [if_pos hbound]
              cases hscan : scanFieldsLoop f1 data (tagEnd + 8) with
              | none => simp only [hscan] at h; simp at h
              | some fs =>
                simp only [hscan, Option.map_some', Option.some.injEq] at h
                rw [ih f2 data (tagEnd + 8) fs (by omega) hscan]
                simp [h]
            · simp at h
          · rw [if_neg hw1] at h ⊢
            by_cases hw2 : tag &&& 7 = 2
            · rw [if_pos hw2] at h ⊢
              cases hrv2 : read_varint data tagEnd with
              | error e => simp only [hrv2] at h; simp at h
              | ok r2 =>
                obtain ⟨len, contentOff⟩ := r2
                simp only [hrv2] at h ⊢
                split at h
                · rename_i hbound
                  rw [if_pos hbound]
                  cases hscan : scanFieldsLoop f1 data (contentOff + len) with
                  | none => simp only [hscan] at h; simp at h
                  | some fs =>
                    simp only [hscan, Option.map_some', Option.some.injEq] at h
                    rw [ih f2 data (contentOff + len) fs (by omega) hscan]
                    simp [h]
                · simp at h
            · rw [if_neg hw2] at h ⊢
              by_cases hw5 : tag &&& 7 = 5
              · rw [if_pos hw5] at h ⊢
                split at h
                · rename_i hbound
                  rw [if_pos hbound]
                  cases hscan : scanFieldsLoop f1 data (tagEnd + 4) with
                  | none => simp only [hscan] at h; simp at h
                  | some fs =>
                    simp only [hscan, Option.map_some', Option.some.injEq] at h
                    rw [ih f2 data (tagEnd + 4) fs (by omega) hscan]
                    simp [h]
                · simp at h
              · rw [if_neg hw5] at h ⊢
                simp at h
    · rw [if_neg hoff] at h ⊢
      exact h

/-!
Claim theorems.
-/

/-- C1 counterexample: the claim says a length-delimited field declaring
length 5 with only 1 byte remaining must fail, and that skipping a fixed
64-bit field whose 8 bytes extend past the end must fail.  In the code,
`find_field` on the buffer `[10, 5, 65]` (field 1, wire type 2, declared
length 5, one remaining byte) returns the clamped one-byte range `[65]`
instead of failing, and `skip_field` on an empty buffer with wire type 1
returns offset 8, past the end of the buffer, instead of failing. -/
theorem C1_counterexample :
    find_field [10, 5, 65] 1 = .ok (some [65]) ∧
    skip_field [] 0 1 = .ok 8 ∧
    List.length ([] : List Nat) < 8 :=
  ⟨by decide, by decide, by decide⟩

/-- C1 (amended): no byte outside the buffer's bounds is ever read — a
varint decode that succeeds ends at an offset within the buffer, and any
byte range returned by the field locator consists of bytes of the buffer
(it is a contiguous sub-list) — but a length-delimited field whose
declared length exceeds the remaining bytes yields the clamped shorter
range rather than a failure, and skipping a fixed 64-bit or 32-bit field
may produce an offset beyond the buffer without failing. -/
theorem C1_amended :
    (∀ (data : List Nat) (offset v q : Nat),
      read_varint data offset = .ok (v, q) → offset < q ∧ q ≤ data.length) ∧
    (∀ (data : List Nat) (target : Nat) (r : List Nat),
      find_field data target = .ok (some r) → ∃ s t, data = s ++ r ++ t) := by
  constructor
  · intro data offset v q h
    exact read_varint_bound h
  · intro data target r h
    obtain ⟨c, len, rfl⟩ := findFieldLoop_slice _ data target 0 r h
    refine ⟨data.take c, (data.drop c).drop len, ?_⟩
    rw [List.append_assoc, List.take_append_drop, List.take_append_drop]

/-- Witness for C1 (amended) at concrete inputs. -/
theorem C1_amended_witness :
    read_varint [5] 0 = .ok (5, 1) ∧ (0 < 1 ∧ 1 ≤ List.length [(5 : Nat)]) ∧
    find_field [10, 1, 65] 1 = .ok (some [65]) ∧
    (∃ s t, ([10, 1, 65] : List Nat) = s ++ [65] ++ t) :=
  ⟨by decide, C1_amended.1 [5] 0 5 1 (by decide), by decide,
    C1_amended.2 [10, 1, 65] 1 [65] (by decide)⟩

/-- C2: on a well-formed buffer (one whose scan from offset 0 yields a
field list) and a positive target field number, the field locator returns
without error the value bytes of the first wire-type-2 field with that
number, and the non-error absence signal `none` when there is no such
field (including the empty buffer and buffers with only other numbers or
non-2 wire types). -/
theorem C2_field_locator (data : List Nat) (target : Nat) (fields : List RawField)
    (htarget : 0 < target) (hwf : scanFields data = some fields) :
    find_field data target = .ok (firstMatch target fields) :=
  findAlign (data.length + 1) data target 0 fields hwf

/-- Witness for C2: duplicate field 2 — first match wins; missing field
numbers and the empty buffer give the non-error `none`. -/
theorem C2_field_locator_witness :
    (0 : Nat) < 2 ∧
    scanFields [18, 1, 65, 18, 1, 66, 8, 5] =
      some [⟨2, 2, [65]⟩, ⟨2, 2, [66]⟩, ⟨1, 0, []⟩] ∧
    find_field [18, 1, 65, 18, 1, 66, 8, 5] 2 = .ok (some [65]) ∧
    find_field [18, 1, 65, 18, 1, 66, 8, 5] 7 = .ok none ∧
    find_field [] 7 = .ok none := by
  refine ⟨by decide, by decide, ?_, ?_, ?_⟩
  · have h := C2_field_locator [18, 1, 65, 18, 1, 66, 8, 5] 2
      [⟨2, 2, [65]⟩, ⟨2, 2, [66]⟩, ⟨1, 0, []⟩] (by decide) (by decide)
    have hm : firstMatch 2 [⟨2, 2, [65]⟩, ⟨2, 2, [66]⟩, ⟨1, 0, []⟩] = some [65] := by decide
    rw [hm] at h
    exact h
  · have h := C2_field_locator [18, 1, 65, 18, 1, 66, 8, 5] 7
      [⟨2, 2, [65]⟩, ⟨2, 2, [66]⟩, ⟨1, 0, []⟩] (by decide) (by decide)
    have hm : firstMatch 7 [⟨2, 2, [65]⟩, ⟨2, 2, [66]⟩, ⟨1, 0, []⟩] = none := by decide
    rw [hm] at h
    exact h
  · have h := C2_field_locator [] 7 [] (by decide) (by decide)
    have hm : firstMatch 7 ([] : List RawField) = none := by decide
    rw [hm] at h
    exact h

/-- C3: on a well-formed sub-blob, the credential record decoder equals
the per-field dispatch folded over the scanned field list: field 1 UTF-8
decodes into `access_token`, field 2 into `token_type`, field 3 into
`refresh_token`, field 4 goes through the timestamp decoder into
`expiry_seconds`, and every other field number and every non-wire-2 field
is skipped. -/
theorem C3_credential_decoder (data : List Nat) (fields : List RawField)
    (hwf : scanFields data = some fields) :
    parse_oauth_token_info data = foldDispatch [] fields :=
  parseAlign (data.length + 1) data 0 [] fields hwf

/-- Witness for C3: the claim's concrete sub-blob with field 1 = "AT1",
field 3 = "RT1" and field 4 = a nested blob whose field 1 is the varint
1700000000 yields exactly the claimed record, with no `token_type`. -/
theorem C3_credential_decoder_witness :
    scanFields [10, 3, 65, 84, 49, 26, 3, 82, 84, 49, 34, 6, 8, 128, 226, 207, 170, 6] =
      some [⟨1, 2, [65, 84, 49]⟩, ⟨3, 2, [82, 84, 49]⟩, ⟨4, 2, [8, 128, 226, 207, 170, 6]⟩] ∧
    parse_oauth_token_info [10, 3, 65, 84, 49, 26, 3, 82, 84, 49, 34, 6, 8, 128, 226, 207, 170, 6] =
      .ok [("access_token", PyVal.pstr "AT1"), ("refresh_token", PyVal.pstr "RT1"),
        ("expiry_seconds", PyVal.pint 1700000000)] ∧
    ([("access_token", PyVal.pstr "AT1"), ("refresh_token", PyVal.pstr "RT1"),
        ("expiry_seconds", PyVal.pint 1700000000)].lookup "token_type") = none := by
  refine ⟨by decide, ?_, by decide⟩
  have h := C3_credential_decoder
    [10, 3, 65, 84, 49, 26, 3, 82, 84, 49, 34, 6, 8, 128, 226, 207, 170, 6]
    [⟨1, 2, [65, 84, 49]⟩, ⟨3, 2, [82, 84, 49]⟩, ⟨4, 2, [8, 128, 226, 207, 170, 6]⟩]
    (by decide)
  rw [h]
  decide

/-- C4: encoding any 64-bit-representable value as a base-128
continuation sequence and decoding it at its starting offset returns the
value and the offset of the first byte after the encoding. -/
theorem C4_varint_roundtrip (v : Nat) (pre rest : List Nat) (hv : v < 2 ^ 64) :
    read_varint (pre ++ (encVarint v ++ rest)) pre.length =
      .ok (v, pre.length + (encVarint v).length) :=
  read_varint_enc pre rest v

/-- Witness for C4 at value 300. -/
theorem C4_varint_roundtrip_witness :
    (300 : Nat) < 2 ^ 64 ∧
    read_varint ([7] ++ (encVarint 300 ++ [9])) (List.length [(7 : Nat)]) =
      .ok (300, List.length [(7 : Nat)] + (encVarint 300).length) :=
  ⟨by decide, C4_varint_roundtrip 300 [7] [9] (by decide)⟩

/-- C5 counterexample: the claim says the decoder fails with an
`OutOfBounds` error kind distinct from `IncompleteVarint` when the offset
is at or past the end.  The code raises the same
`ValueError("Incomplete varint")` in that case — there is no distinct
out-of-bounds error kind anywhere in the source — so decoding the empty
buffer at offset 0 and a 1-byte buffer at offset 1 both produce
`incompleteVarint`. -/
theorem C5_counterexample :
    read_varint [] 0 = .error .incompleteVarint ∧
    read_varint [65] 1 = .error .incompleteVarint :=
  ⟨by decide, by decide⟩

/-- C5 (amended): for any offset at or past the buffer's end the decoder
fails with `incompleteVarint` (the same error as a truncated varint, not
a distinct kind), and whenever every byte from the offset to the end of
the buffer has its continuation bit set the decoder also fails with
`incompleteVarint`. -/
theorem C5_amended :
    (∀ (data : List Nat) (offset : Nat), data.length ≤ offset →
      read_varint data offset = .error .incompleteVarint) ∧
    (∀ (data : List Nat) (offset : Nat),
      (∀ i, (hi : i < data.length) → offset ≤ i → data[i] &&& 0x80 ≠ 0) →
      read_varint data offset = .error .incompleteVarint) :=
  ⟨read_varint_oob, read_varint_all_cont⟩

/-- Witness for C5 (amended) at concrete inputs. -/
theorem C5_amended_witness :
    read_varint [65] 2 = .error .incompleteVarint ∧
    read_varint [128, 128] 0 = .error .incompleteVarint :=
  ⟨C5_amended.1 [65] 2 (by decide), C5_amended.2 [128, 128] 0 (by decide)⟩

/-- C6 counterexample: the claim says any malformed varint mid-scan makes
the locator report the non-error "not found".  In the code only the tag
read is guarded: on `[18, 128]` with target 2 the tag matches and the
malformed length varint's error propagates, and on `[8, 128]` the
malformed varint met while skipping a non-matching field propagates —
neither returns the "not found" signal. -/
theorem C6_counterexample :
    find_field [18, 128] 2 = .error .incompleteVarint ∧
    find_field [18, 128] 2 ≠ .ok none ∧
    find_field [8, 128] 2 = .error .incompleteVarint :=
  ⟨by decide, by decide, by decide⟩

/-- C6 (amended): only a malformed varint met while reading a TAG stops
the scan with the non-error "not found"; after a well-formed prefix, a
trailing block whose first varint is malformed never aborts the result:
the locator still returns the first match of the prefix (or "not found"
when the prefix has none). -/
theorem C6_amended (data junk : List Nat) (target : Nat) (fields : List RawField)
    (e : DecodeErr) (hwf : scanFields data = some fields)
    (hjunk : read_varint junk 0 = .error e) :
    find_field (data ++ junk) target = .ok (firstMatch target fields) := by
  unfold find_field
  have hwf2 : scanFieldsLoop ((data ++ junk).length + 1) data 0 = some fields :=
    scanFieldsLoop_mono (data.length + 1) _ data 0 fields
      (by simp only [List.length_append]; omega) hwf
  exact findAlignExt _ data junk target 0 fields e (by omega) hwf2 hjunk

/-- Witness for C6 (amended): a malformed trailing byte after a matching
field does not prevent the match, and after a non-matching prefix the
locator reports "not found". -/
theorem C6_amended_witness :
    scanFields [18, 1, 65] = some [⟨2, 2, [65]⟩] ∧
    read_varint [128] 0 = .error .incompleteVarint ∧
    find_field ([18, 1, 65] ++ [128]) 2 = .ok (some [65]) ∧
    find_field ([8, 5] ++ [128]) 2 = .ok none := by
  refine ⟨by decide, by decide, ?_, ?_⟩
  · have h := C6_amended [18, 1, 65] [128] 2 [⟨2, 2, [65]⟩] .incompleteVarint
      (by decide) (by decide)
    have hm : firstMatch 2 [(⟨2, 2, [65]⟩ : RawField)] = some [65] := by decide
    rw [hm] at h
    exact h
  · have h := C6_amended [8, 5] [128] 2 [⟨1, 0, []⟩] .incompleteVarint
      (by decide) (by decide)
    have hm : firstMatch 2 [(⟨1, 0, []⟩ : RawField)] = none := by decide
    rw [hm] at h
    exact h

/-- C7: the field skipper returns, for wire type 0, the offset after the
varint; for wire type 1, offset + 8; for wire type 2 with declared length
L, the offset after the length varint plus L for every possible content
of the skipped bytes; for wire type 5, offset + 4; and fails with
`unknownWireType` for every other wire type. -/
theorem C7_field_skipper :
    (∀ (data : List Nat) (offset : Nat),
      skip_field data offset 0 = (read_varint data offset).map (fun r => r.2)) ∧
    (∀ (data : List Nat) (offset : Nat), skip_field data offset 1 = .ok (offset + 8)) ∧
    (∀ (pre content rest : List Nat) (len : Nat),
      skip_field (pre ++ (encVarint len ++ (content ++ rest))) pre.length 2 =
        .ok (pre.length + (encVarint len).length + len)) ∧
    (∀ (data : List Nat) (offset : Nat), skip_field data offset 5 = .ok (offset + 4)) ∧
    (∀ (data : List Nat) (offset wire : Nat), wire ≠ 0 → wire ≠ 1 → wire ≠ 2 → wire ≠ 5 →
      skip_field data offset wire = .error (.unknownWireType wire)) := by
  refine ⟨?_, ?_, ?_, ?_, ?_⟩
  · intro data offset
    simp only [skip_field, if_pos rfl]
    cases read_varint data offset with
    | error e => rfl
    | ok r =>
      obtain ⟨a, b⟩ := r
      rfl
  · intro data offset
    simp [skip_field]
  · intro pre content rest len
    have henc := read_varint_enc pre (content ++ rest) len
    simp only [skip_field, if_neg (by omega : (2 : Nat) ≠ 0),
      if_neg (by omega : (2 : Nat) ≠ 1), if_pos rfl, henc]
    simp
  · intro data offset
    simp [skip_field]
  · intro data offset wire h0 h1 h2 h5
    simp [skip_field, h0, h1, h2, h5]

/-- Witness for C7 at concrete inputs for each wire type. -/
theorem C7_field_skipper_witness :
    skip_field [3] 0 0 = (read_varint [3] 0).map (fun r => r.2) ∧
    skip_field [] 3 1 = .ok (3 + 8) ∧
    skip_field ([] ++ (encVarint 2 ++ ([9, 9] ++ []))) (List.length ([] : List Nat)) 2 =
      .ok (List.length ([] : List Nat) + (encVarint 2).length + 2) ∧
    skip_field [] 0 5 = .ok (0 + 4) ∧
    skip_field [] 0 3 = .error (.unknownWireType 3) :=
  ⟨C7_field_skipper.1 [3] 0, C7_field_skipper.2.1 [] 3,
    C7_field_skipper.2.2.1 [] [9, 9] [] 2, C7_field_skipper.2.2.2.1 [] 0,
    C7_field_skipper.2.2.2.2 [] 0 3 (by decide) (by decide) (by decide) (by decide)⟩

/-- C8 counterexample: the claim says the decoder reads at most 10 bytes
(enough for a 64-bit value).  The code has no such cap: on ten
continuation bytes followed by a terminator it consumes all 11 bytes and
returns offset 11 > 0 + 10. -/
theorem C8_counterexample :
    read_varint [128, 128, 128, 128, 128, 128, 128, 128, 128, 128, 0] 0 = .ok (0, 11) ∧
    ¬ (11 ≤ 0 + 10) :=
  ⟨by decide, by decide⟩

/-- C8 (amended): the decoder keeps consuming continuation bytes without
a 10-byte cap; the only bound is the buffer itself: on success the
returned offset exceeds the starting offset and never exceeds the
buffer's length. -/
theorem C8_amended (data : List Nat) (offset v q : Nat)
    (h : read_varint data offset = .ok (v, q)) : offset < q ∧ q ≤ data.length :=
  read_varint_bound h

/-- Witness for C8 (amended) at a concrete input. -/
theorem C8_amended_witness :
    read_varint [5] 0 = .ok (5, 1) ∧ (0 < 1 ∧ 1 ≤ List.length [(5 : Nat)]) :=
  ⟨by decide, C8_amended [5] 0 5 1 (by decide)⟩

/-- C9 counterexample: the claim says that when the timestamp decoder
finds no value, `expiry_seconds` is left absent from the record.  The
code executes `info["expiry_seconds"] = parse_timestamp(value)`
unconditionally, so on a sub-blob whose field 4 is an empty nested blob
the key is populated with the null placeholder. -/
theorem C9_counterexample :
    parse_oauth_token_info [34, 0] = .ok [("expiry_seconds", PyVal.pnone)] ∧
    ([("expiry_seconds", PyVal.pnone)].lookup "expiry_seconds") = some PyVal.pnone :=
  ⟨by decide, by decide⟩

/-- C9 (amended): when a well-formed sub-blob consists of a field 4 whose
nested blob makes the timestamp decoder report the non-error "no value",
the credential record decoder stores the null placeholder under the
`expiry_seconds` key (the key is populated with `None`, not left
absent). -/
theorem C9_amended (data inner : List Nat)
    (hwf : scanFields data = some [⟨4, 2, inner⟩])
    (hts : parse_timestamp inner = .ok none) :
    parse_oauth_token_info data = .ok [("expiry_seconds", PyVal.pnone)] := by
  unfold parse_oauth_token_info
  rw [parseAlign (data.length + 1) data 0 [] [⟨4, 2, inner⟩] hwf]
  simp [foldDispatch, dispatchField, hts, dictSet, pyOfTs]

/-- Witness for C9 (amended) at the concrete sub-blob `[34, 0]`. -/
theorem C9_amended_witness :
    scanFields [34, 0] = some [⟨4, 2, []⟩] ∧ parse_timestamp [] = .ok none ∧
    parse_oauth_token_info [34, 0] = .ok [("expiry_seconds", PyVal.pnone)] :=
  ⟨by decide, by decide, C9_amended [34, 0] [] (by decide) (by decide)⟩

/-- C10: in the credential record decoder the stored value of every key
is the LAST assignment made to it in buffer order — each later wire-2
occurrence of a known field number overwrites the earlier one, the
opposite of the field locator's first-match rule. -/
theorem C10_last_wins (data : List Nat) (assigns info : List (String × PyVal)) (k : String)
    (hassigns : tokenAssigns data = .ok assigns)
    (hparse : parse_oauth_token_info data = .ok info) :
    info.lookup k = lastAssign k assigns := by
  have halign := assignsAlign (data.length + 1) data 0 []
  unfold parse_oauth_token_info at hparse
  unfold tokenAssigns at hassigns
  rw [hparse, hassigns] at halign
  simp only [Except.map, Except.ok.injEq] at halign
  rw [halign, lookup_foldl_dictSet]
  cases lastAssign k assigns with
  | some v => rfl
  | none => rfl

/-- Witness for C10: a sub-blob with two field-3 strings "A" then "B"
stores `refresh_token = "B"`, the later occurrence. -/
theorem C10_last_wins_witness :
    tokenAssigns [26, 1, 65, 26, 1, 66] =
      .ok [("refresh_token", PyVal.pstr "A"), ("refresh_token", PyVal.pstr "B")] ∧
    parse_oauth_token_info [26, 1, 65, 26, 1, 66] = .ok [("refresh_token", PyVal.pstr "B")] ∧
    ([("refresh_token", PyVal.pstr "B")].lookup "refresh_token") =
      lastAssign "refresh_token"
        [("refresh_token", PyVal.pstr "A"), ("refresh_token", PyVal.pstr "B")] :=
  ⟨by decide, by decide, C10_last_wins [26, 1, 65, 26, 1, 66] _ _ "refresh_token"
    (by decide) (by decide)⟩
